import Mathlib

/-!
Shallow embedding of the Raft member core from
`src/clustering/generic/raft_core.tcc` (template `raft_member_t<state_t,
change_t>`).  The handler bodies are translated directly from that file.
The log data type `raft_log_t` is declared in `raft_core.hpp`, which is not
part of the sources; its operations are modelled from the specification
(section 4.1).  Machine integers (`raft_term_t`, `raft_log_index_t`) are
modelled as `Nat`; `nil_uuid()` member ids are modelled as `Option Nat`
being `none`.  A `guarantee` failure or an invalid log read is a fatal
error, modelled by the operation returning `none`.  Calls to
`interface->write_persistent_state` are recorded in a `writes` list carried
by each handler result, so that "persist before reply" properties can be
stated.
-/

/-- Modelled from the spec: role of the member (`mode_t` in `raft_core.hpp`,
spec section 4.2): Follower, Candidate or Leader. -/
inductive mode_t : Type
| follower
| candidate
| leader
deriving DecidableEq, Repr

/-- Modelled from the spec: outcome enum of an AppendEntries reply
(`raft_change_outcome_t` in `raft_core.hpp`, spec section 6):
Success, Retry or Rejected. -/
inductive raft_change_outcome_t : Type
| success
| retry
| rejected
deriving DecidableEq, Repr

/-- Modelled from the spec: `raft_log_t` (declared in `raft_core.hpp`, not in
the sources; spec section 4.1).  `prev_log_index` and `prev_log_term`
describe the snapshot boundary; `entries` holds pairs `(change, term)` for
indices `prev_log_index + 1 .. prev_log_index + entries.length` (the `.first`
of an entry is the change, matching `get_entry(i).first` in the source). -/
structure raft_log_t (change_t : Type) : Type where
  prev_log_index : Nat
  prev_log_term : Nat
  entries : List (change_t × Nat)
deriving DecidableEq, Repr

namespace raft_log_t

variable {change_t : Type}

/-- Modelled from the spec: `latest_index() = prev_index + len(entries)`
(spec section 4.1). -/
def get_latest_index (log : raft_log_t change_t) : Nat :=
  log.prev_log_index + log.entries.length

/-- Modelled from the spec: `get(i)` is valid only for
`prev_index < i ≤ latest_index`; reading any other index is a fatal
programming error, modelled by `none` (spec section 4.1). -/
def get_entry (log : raft_log_t change_t) (i : Nat) : Option (change_t × Nat) :=
  if log.prev_log_index < i then log.entries.get? (i - log.prev_log_index - 1)
  else none

/-- Modelled from the spec: `entry_term(i)` returns `prev_term` for
`i = prev_index` and the stored entry's term for `prev_index < i ≤ latest`;
any other index is a fatal programming error, modelled by `none`
(spec section 4.1). -/
def get_entry_term (log : raft_log_t change_t) (i : Nat) : Option Nat :=
  if i = log.prev_log_index then some log.prev_log_term
  else (log.get_entry i).map (fun e => e.2)

/-- Modelled from the spec: `append(entry)` pushes to the tail
(spec section 4.1). -/
def append (log : raft_log_t change_t) (e : change_t × Nat) :
    raft_log_t change_t :=
  { log with entries := log.entries ++ [e] }

/-- Modelled from the spec: `truncate_after`, called `delete_entries_from(i)`
in the source, drops every entry with index `≥ i` (the conflicting entry
"and all that follow it"). -/
def delete_entries_from (log : raft_log_t change_t) (i : Nat) :
    raft_log_t change_t :=
  { log with entries := log.entries.take (i - log.prev_log_index - 1) }

/-- Modelled from the spec: `truncate_through`, called `delete_entries_to(i)`
in the source: discards entries with index `≤ i`, advancing `prev_index` to
`i` and `prev_term` to `entry_term(i)` (spec section 4.1).  Invalid when
`entry_term(i)` is invalid. -/
def delete_entries_to (log : raft_log_t change_t) (i : Nat) :
    Option (raft_log_t change_t) :=
  match log.get_entry_term i with
  | none => none
  | some t =>
      some { prev_log_index := i
             prev_log_term := t
             entries := log.entries.drop (i - log.prev_log_index) }

end raft_log_t

/-- Persistent state of a member (`raft_persistent_state_t`, spec section 3):
current term, vote record, log and state-machine snapshot. -/
structure raft_persistent_state_t (state_t change_t : Type) : Type where
  current_term : Nat
  voted_for : Option Nat
  log : raft_log_t change_t
  snapshot : state_t
deriving DecidableEq, Repr

/-- Operations the application's `state_t` provides (`consider_change` and
`apply_change` methods used by `update_commit_index` in the source). -/
structure raft_state_ops (state_t change_t : Type) : Type where
  consider_change : state_t → change_t → Bool
  apply_change : state_t → change_t → state_t

/-- The member state mutated by the RPC handlers in `raft_core.tcc`:
persistent state `ps` plus the volatile fields `commit_index`,
`last_applied`, the running `state_machine`, `this_term_leader_id`
(`none` models `nil_uuid()`), the role `mode` and the member's own id. -/
structure raft_member_t (state_t change_t : Type) : Type where
  ps : raft_persistent_state_t state_t change_t
  commit_index : Nat
  last_applied : Nat
  state_machine : state_t
  this_term_leader_id : Option Nat
  mode : mode_t
  member_id : Nat
deriving DecidableEq, Repr

/-- Result of `on_append_entries_rpc`: the member after the call, the list of
states passed to `write_persistent_state` during the call (in order), and the
reply `(*term_out, *success_out)`. -/
structure append_result (state_t change_t : Type) : Type where
  member : raft_member_t state_t change_t
  writes : List (raft_persistent_state_t state_t change_t)
  term_out : Nat
  success_out : raft_change_outcome_t
deriving DecidableEq, Repr

/-- Result of `on_request_vote`: member, persistent writes, and the reply
`(*term_out, *vote_granted_out)`. -/
structure vote_result (state_t change_t : Type) : Type where
  member : raft_member_t state_t change_t
  writes : List (raft_persistent_state_t state_t change_t)
  term_out : Nat
  vote_granted_out : Bool
deriving DecidableEq, Repr

/-- Result of `on_install_snapshot`: member, persistent writes, and the reply
`*term_out`. -/
structure install_result (state_t change_t : Type) : Type where
  member : raft_member_t state_t change_t
  writes : List (raft_persistent_state_t state_t change_t)
  term_out : Nat
deriving DecidableEq, Repr

variable {state_t change_t : Type}

/-- `raft_member_t::update_term` (raft_core.tcc lines 272-290):
`guarantee(new_term > ps.current_term)`, then set `ps.current_term`,
clear `ps.voted_for` and `this_term_leader_id`.  Note that the source does
NOT write persistent state here (it carries an `RSI` remark to that effect),
so no write is recorded. -/
def update_term (m : raft_member_t state_t change_t) (new_term : Nat) :
    Option (raft_member_t state_t change_t) :=
  if m.ps.current_term < new_term then
    some { m with
           ps := { m.ps with current_term := new_term, voted_for := none }
           this_term_leader_id := none }
  else none

/-- `raft_member_t::become_follower` (raft_core.tcc lines 323-334): tears
down the drainer, which interrupts `leader_coro` and leaves `mode` as
follower. -/
def become_follower (m : raft_member_t state_t change_t) :
    raft_member_t state_t change_t :=
  { m with mode := mode_t.follower }

/-- Step 1 shared by all three RPC handlers (e.g. raft_core.tcc lines 17-25):
if the request term exceeds `ps.current_term`, call `update_term` and, if not
already a follower, `become_follower`. -/
def handle_higher_term (m : raft_member_t state_t change_t) (term : Nat) :
    Option (raft_member_t state_t change_t) :=
  if m.ps.current_term < term then
    match update_term m term with
    | none => none
    | some m1 =>
        if m1.mode = mode_t.follower then some m1 else some (become_follower m1)
  else some m

/-- Iteration body of the `while (last_applied < commit_index)` loop of
`update_commit_index`, structurally recursive on the remaining iteration
count `steps`: increment `last_applied`, check the `guarantee` that the
state machine accepts the entry's change, apply it.  A failed guarantee or
an invalid log read is fatal (`none`). -/
def apply_committed_loop (ops : raft_state_ops state_t change_t)
    (log : raft_log_t change_t) :
    state_t → Nat → Nat → Option (state_t × Nat)
  | sm, last_applied, 0 => some (sm, last_applied)
  | sm, last_applied, Nat.succ steps =>
      match log.get_entry (last_applied + 1) with
      | none => none
      | some e =>
          if ops.consider_change sm e.1 then
            apply_committed_loop ops log (ops.apply_change sm e.1)
              (last_applied + 1) steps
          else none

/-- The `while (last_applied < commit_index)` loop of `update_commit_index`
(raft_core.tcc lines 302-307); the loop runs exactly
`target - last_applied` times. -/
def apply_committed (ops : raft_state_ops state_t change_t)
    (log : raft_log_t change_t) (sm : state_t)
    (last_applied target : Nat) : Option (state_t × Nat) :=
  apply_committed_loop ops log sm last_applied (target - last_applied)

/-- `raft_member_t::update_commit_index` (raft_core.tcc lines 292-321):
`guarantee(new_commit_index > commit_index)`, set `commit_index`, apply all
newly committed entries to the state machine, then snapshot-compact: if
`last_applied > ps.log.prev_log_index`, copy the state machine into
`ps.snapshot` and `delete_entries_to(last_applied)`.  No persistent write
(the source carries an `RSI` remark). -/
def update_commit_index (ops : raft_state_ops state_t change_t)
    (m : raft_member_t state_t change_t) (new_commit_index : Nat) :
    Option (raft_member_t state_t change_t) :=
  if m.commit_index < new_commit_index then
    match apply_committed ops m.ps.log m.state_machine m.last_applied
        new_commit_index with
    | none => none
    | some (sm, la) =>
        let m1 := { m with
                    commit_index := new_commit_index
                    last_applied := la
                    state_machine := sm }
        if m1.ps.log.prev_log_index < la then
          match m1.ps.log.delete_entries_to la with
          | none => none
          | some log2 =>
              some { m1 with
                     ps := { m1.ps with snapshot := sm, log := log2 } }
        else some m1
  else none

/-- The acceptability loop of `on_append_entries_rpc` (raft_core.tcc lines
60-72): consult `interface->consider_proposed_change` on the change of each
incoming entry from index `i` up to `entries.get_latest_index()`, bailing out
with `rejected` at the first refusal.  Reading a nonexistent incoming entry
is fatal. -/
def check_entries_loop (P : change_t → Bool) (entries : raft_log_t change_t) :
    Nat → Nat → Option Bool
  | _, 0 => some true
  | i, Nat.succ steps =>
      match entries.get_entry i with
      | none => none
      | some e =>
          if P e.1 then check_entries_loop P entries (i + 1) steps
          else some false

/-- Entry point of the acceptability loop starting at index `i`; the loop
runs while `i ≤ entries.get_latest_index()`, i.e. exactly
`entries.get_latest_index() + 1 - i` times. -/
def check_entries (P : change_t → Bool) (entries : raft_log_t change_t)
    (i : Nat) : Option Bool :=
  check_entries_loop P entries i (entries.get_latest_index + 1 - i)

/-- The conflict-search loop of `on_append_entries_rpc` (raft_core.tcc lines
85-92): scan indices from `i` to `stop`, returning the first index at which
the local term disagrees with the incoming term (`some (some i)`), or
`some none` if there is no conflict; an invalid term read is fatal. -/
def find_conflict_loop (plog entries : raft_log_t change_t) :
    Nat → Nat → Option (Option Nat)
  | _, 0 => some none
  | i, Nat.succ steps =>
      match plog.get_entry_term i, entries.get_entry_term i with
      | some a, some b =>
          if a ≠ b then some (some i)
          else find_conflict_loop plog entries (i + 1) steps
      | _, _ => none

/-- Entry point of the conflict-search loop from index `i` to `stop`
inclusive; the loop runs exactly `stop + 1 - i` times. -/
def find_conflict (plog entries : raft_log_t change_t) (i stop : Nat) :
    Option (Option Nat) :=
  find_conflict_loop plog entries i (stop + 1 - i)

/-- The append loop of `on_append_entries_rpc` (raft_core.tcc lines 95-99):
append incoming entries with indices from `i` up to
`entries.get_latest_index()` to the local log. -/
def append_new_loop (entries : raft_log_t change_t) :
    raft_log_t change_t → Nat → Nat → Option (raft_log_t change_t)
  | plog, _, 0 => some plog
  | plog, i, Nat.succ steps =>
      match entries.get_entry i with
      | none => none
      | some e => append_new_loop entries (plog.append e) (i + 1) steps

/-- Entry point of the append loop starting at index `i`; the loop runs
while `i ≤ entries.get_latest_index()`, i.e. exactly
`entries.get_latest_index() + 1 - i` times. -/
def append_new (plog entries : raft_log_t change_t) (i : Nat) :
    Option (raft_log_t change_t) :=
  append_new_loop entries plog i (entries.get_latest_index + 1 - i)

/-- The `while (leader_commit > commit_index)` loop of
`on_append_entries_rpc` (raft_core.tcc lines 103-105), each iteration calling
`update_commit_index(min(leader_commit, entries.get_latest_index()))`.
The fuel bound `leader_commit + 1` is sufficient for every possible
execution because each successful `update_commit_index` strictly increases
`commit_index` and the loop only runs while `commit_index < leader_commit`;
running out of fuel therefore coincides with no normal termination. -/
def commit_loop (ops : raft_state_ops state_t change_t)
    (entries_latest leader_commit : Nat) (fuel : Nat)
    (m : raft_member_t state_t change_t) :
    Option (raft_member_t state_t change_t) :=
  match fuel with
  | 0 => none
  | Nat.succ fuel' =>
      if m.commit_index < leader_commit then
        match update_commit_index ops m (min leader_commit entries_latest) with
        | none => none
        | some m1 => commit_loop ops entries_latest leader_commit fuel' m1
      else some m

/-- The `this_term_leader_id` bookkeeping shared by `on_append_entries_rpc`
and `on_install_snapshot` (raft_core.tcc lines 107-115 and 255-263): record
the leader if unseen this term, otherwise `guarantee` it is the same
leader. -/
def record_leader (m : raft_member_t state_t change_t) (leader_id : Nat) :
    Option (raft_member_t state_t change_t) :=
  match m.this_term_leader_id with
  | none => some { m with this_term_leader_id := some leader_id }
  | some l => if l = leader_id then some m else none

/-- Body of `on_append_entries_rpc` from the application-level acceptability
check onwards (raft_core.tcc lines 56-122), for a member `m2` that has
already passed the term checks and the mode adjustments; `P` stands for
`interface->consider_proposed_change`. -/
def append_entries_phase2 (P : change_t → Bool)
    (ops : raft_state_ops state_t change_t)
    (m2 : raft_member_t state_t change_t)
    (leader_id : Nat) (entries : raft_log_t change_t)
    (leader_commit : Nat) :
    Option (append_result state_t change_t) :=
  match check_entries P entries
      (min entries.get_latest_index leader_commit + 1) with
  | none => none
  | some false =>
      some { member := m2
             writes := []
             term_out := m2.ps.current_term
             success_out := raft_change_outcome_t.rejected }
  | some true =>
      if m2.ps.log.get_latest_index < entries.prev_log_index then
        some { member := m2
               writes := []
               term_out := m2.ps.current_term
               success_out := raft_change_outcome_t.retry }
      else
        match m2.ps.log.get_entry_term entries.prev_log_index with
        | none => none
        | some t =>
            if t ≠ entries.prev_log_term then
              some { member := m2
                     writes := []
                     term_out := m2.ps.current_term
                     success_out := raft_change_outcome_t.retry }
            else
              match find_conflict m2.ps.log entries
                  (entries.prev_log_index + 1)
                  (min m2.ps.log.get_latest_index
                    entries.get_latest_index) with
              | none => none
              | some conflict =>
                  let log1 :=
                    match conflict with
                    | some i => m2.ps.log.delete_entries_from i
                    | none => m2.ps.log
                  match append_new log1 entries
                      (log1.get_latest_index + 1) with
                  | none => none
                  | some log2 =>
                      let m3 := { m2 with
                                  ps := { m2.ps with log := log2 } }
                      match commit_loop ops entries.get_latest_index
                          leader_commit (leader_commit + 1) m3 with
                      | none => none
                      | some m5 =>
                          match record_leader m5 leader_id with
                          | none => none
                          | some m6 =>
                              some { member := m6
                                     writes := [m6.ps]
                                     term_out := m6.ps.current_term
                                     success_out :=
                                       raft_change_outcome_t.success }

/-- `raft_member_t::on_append_entries_rpc` (raft_core.tcc lines 5-123),
translated branch for branch: the term checks and mode adjustments of lines
14-54, followed by `append_entries_phase2` for the rest of the handler. -/
def on_append_entries_rpc (P : change_t → Bool)
    (ops : raft_state_ops state_t change_t)
    (m0 : raft_member_t state_t change_t)
    (term leader_id : Nat) (entries : raft_log_t change_t)
    (leader_commit : Nat) :
    Option (append_result state_t change_t) :=
  match handle_higher_term m0 term with
  | none => none
  | some m1 =>
      if term < m1.ps.current_term then
        some { member := m1
               writes := []
               term_out := m1.ps.current_term
               success_out := raft_change_outcome_t.retry }
      else if term = m1.ps.current_term then
        let m2 := if m1.mode = mode_t.candidate then become_follower m1 else m1
        if m2.mode = mode_t.leader then none
        else append_entries_phase2 P ops m2 leader_id entries leader_commit
      else none

/-- `raft_member_t::on_request_vote` (raft_core.tcc lines 126-196),
translated branch for branch. -/
def on_request_vote (m0 : raft_member_t state_t change_t)
    (term candidate_id last_log_index last_log_term : Nat) :
    Option (vote_result state_t change_t) :=
  match handle_higher_term m0 term with
  | none => none
  | some m1 =>
      if term < m1.ps.current_term then
        some { member := m1
               writes := []
               term_out := m1.ps.current_term
               vote_granted_out := false }
      else if candidate_id = m1.member_id then none
      else if m1.mode ≠ mode_t.follower ∧
          m1.ps.voted_for ≠ some m1.member_id then none
      else if m1.ps.voted_for ≠ none ∧
          m1.ps.voted_for ≠ some candidate_id then
        some { member := m1
               writes := []
               term_out := m1.ps.current_term
               vote_granted_out := false }
      else
        match m1.ps.log.get_entry_term m1.ps.log.get_latest_index with
        | none => none
        | some local_last_term =>
            if local_last_term < last_log_term ∨
                (last_log_term = local_last_term ∧
                  m1.ps.log.get_latest_index ≤ last_log_index) then
              let m2 := { m1 with
                          ps := { m1.ps with
                                  voted_for := some candidate_id } }
              some { member := m2
                     writes := [m2.ps]
                     term_out := m2.ps.current_term
                     vote_granted_out := true }
            else
              some { member := m1
                     writes := []
                     term_out := m1.ps.current_term
                     vote_granted_out := false }

/-- The tail of `on_install_snapshot` from "Discard the entire log" on
(raft_core.tcc lines 248-269): clear the log entries, reset the running
state machine from the snapshot, set
`commit_index = last_applied = ps.log.prev_log_index`, record the leader,
persist, and reply. -/
def install_snapshot_body (m : raft_member_t state_t change_t)
    (leader_id : Nat) : Option (install_result state_t change_t) :=
  let m1 := { m with ps := { m.ps with
               log := { m.ps.log with entries := [] } } }
  let m2 := { m1 with
              state_machine := m1.ps.snapshot
              commit_index := m1.ps.log.prev_log_index
              last_applied := m1.ps.log.prev_log_index }
  match record_leader m2 leader_id with
  | none => none
  | some m3 =>
      some { member := m3, writes := [m3.ps], term_out := m3.ps.current_term }

/-- `raft_member_t::on_install_snapshot` (raft_core.tcc lines 198-270),
translated branch for branch.  Note the source assigns `ps.snapshot`,
`ps.log.prev_log_index` and `ps.log.prev_log_term` from the request BEFORE
the `last_included_index <= ps.log.prev_log_index` comparison, so that
comparison reads the freshly assigned field. -/
def on_install_snapshot (m0 : raft_member_t state_t change_t)
    (term leader_id last_included_index last_included_term : Nat)
    (snapshot : state_t) : Option (install_result state_t change_t) :=
  match handle_higher_term m0 term with
  | none => none
  | some m1 =>
      if term < m1.ps.current_term then
        some { member := m1, writes := [], term_out := m1.ps.current_term }
      else
        let m2 := { m1 with ps := { m1.ps with
                     snapshot := snapshot
                     log := { m1.ps.log with
                              prev_log_index := last_included_index
                              prev_log_term := last_included_term } } }
        if last_included_index ≤ m2.ps.log.prev_log_index then
          some { member := m2, writes := [], term_out := m2.ps.current_term }
        else if last_included_index ≤ m2.ps.log.get_latest_index then
          match m2.ps.log.get_entry_term last_included_index with
          | none => none
          | some t =>
              if t = last_included_term then
                some { member := m2
                       writes := []
                       term_out := m2.ps.current_term }
              else install_snapshot_body m2 leader_id
        else install_snapshot_body m2 leader_id

/-- `raft_member_t::leader_coro` (raft_core.tcc lines 348-402):
`guarantee(mode == follower)`, increment the term via `update_term`, set
`mode` to candidate, vote for self (the `votes` set receives only the
member's own id), issue RequestVote RPCs to the peers — whose replies
`(term_out, vote_granted_out)` the source receives into locals and then
discards — and finally, if the drain signal was pulsed, fall back to
follower.  `replies` carries the granted flags gathered from the peers;
`interrupted` is the drain signal. -/
def leader_coro (m : raft_member_t state_t change_t)
    (replies : List (Nat × Bool)) (interrupted : Bool) :
    Option (raft_member_t state_t change_t) :=
  if m.mode = mode_t.follower then
    match update_term m (m.ps.current_term + 1) with
    | none => none
    | some m1 =>
        let m2 := { m1 with
                    mode := mode_t.candidate
                    ps := { m1.ps with voted_for := some m1.member_id } }
        let _votes : List Nat := [m2.member_id]
        let _ignored := replies
        if interrupted then some { m2 with mode := mode_t.follower }
        else some m2
  else none

/-! Concrete instantiation used to evaluate the handlers: `state_t` is a
list of the changes applied so far (like `dummy_raft_state_t` in
`src/unittest/clustering_raft.cc`) and `change_t` is `Nat`. -/

/-- Concrete state type: the list of applied changes, mirroring
`dummy_raft_state_t` from the unit test. -/
abbrev DState := List Nat

/-- Concrete state-machine operations: every change is acceptable and
`apply_change` appends it, mirroring `dummy_raft_state_t`. -/
def DOps : raft_state_ops DState Nat :=
  { consider_change := fun _ _ => true, apply_change := fun s c => s ++ [c] }

/-- Builds a follower member with `this_term_leader_id = none` and
`member_id = 1` from the given persistent and volatile fields. -/
def mkMember (ct : Nat) (vf : Option Nat) (log : raft_log_t Nat)
    (snap : DState) (ci la : Nat) (sm : DState) : raft_member_t DState Nat :=
  { ps := { current_term := ct, voted_for := vf, log := log, snapshot := snap }
    commit_index := ci
    last_applied := la
    state_machine := sm
    this_term_leader_id := none
    mode := mode_t.follower
    member_id := 1 }

/-- Follower at term 1 with snapshot boundary 0 and one unapplied log entry
`(change 7, term 1)` at index 1; nothing committed. -/
def mLog1 : raft_member_t DState Nat :=
  mkMember 1 none ⟨0, 0, [(7, 1)]⟩ [] 0 0 []

/-- Follower at term 1 whose log is fully compacted into a snapshot at
index 2, term 1, with state `[5, 6]`. -/
def mSnap2 : raft_member_t DState Nat :=
  mkMember 1 none ⟨2, 1, []⟩ [5, 6] 2 2 [5, 6]

/-- Follower at term 1 with an empty log and empty state. -/
def mEmpty : raft_member_t DState Nat :=
  mkMember 1 none ⟨0, 0, []⟩ [] 0 0 []

/-! Theorems settling the claims. -/

/-- C1: the claim states that `on_install_snapshot`, on a request with
`term ≥ current_term` whose `last_included_index` exceeds the log's
`prev_index` at entry and which matches no local entry, replaces the
snapshot, clears all log entries, resets the running state machine, sets
`commit_index = last_applied = last_included_index` and persists before
replying.  The code instead assigns `ps.snapshot`, `prev_log_index` and
`prev_log_term` BEFORE comparing `last_included_index` with
`ps.log.prev_log_index`, so the comparison reads the freshly assigned field
and is always true: on the concrete input (member `mLog1`, request term 1,
leader 9, snapshot at index 3 term 1 with state `[1,2,3]`) the handler
returns with the old entry `(7,1)` still in the log, `commit_index` and
`last_applied` still 0, the running state machine still empty, and NO
persistent write, even though it has overwritten the snapshot metadata. -/
theorem C1_install_snapshot_never_installs :
    ((on_install_snapshot mLog1 1 9 3 1 ([1, 2, 3] : DState)).map fun r =>
        (r.member.ps.log.entries, r.member.ps.log.prev_log_index,
         r.member.ps.snapshot, r.member.commit_index, r.member.last_applied,
         r.member.state_machine, r.writes, r.term_out)) =
      some ([(7, 1)], 3, [1, 2, 3], 0, 0, [], [], 1) := by
  rfl

/-- C2: the claim states that when `last_included_index` is at or below the
log's `prev_index` at entry, `on_install_snapshot` replies `current_term`
and leaves the persistent state (snapshot, log entries, `prev_index`,
`prev_term`) unchanged.  On the concrete input (member `mSnap2`, whose
snapshot boundary is index 2 with snapshot `[5,6]`, receiving a stale
snapshot at index 1 term 1 with state `[9]`) the handler does reply
`current_term = 1`, but it has already overwritten `ps.snapshot` with `[9]`
and moved `prev_log_index` backwards from 2 to 1, because the source assigns
those fields before performing the comparison. -/
theorem C2_install_snapshot_mutates_on_discard :
    ((on_install_snapshot mSnap2 1 9 1 1 ([9] : DState)).map fun r =>
        (r.member.ps.snapshot, r.member.ps.log.prev_log_index,
         r.member.ps.log.prev_log_term, r.writes, r.term_out)) =
      some ([9], 1, 1, [], 1) := by
  rfl

/-- C3: the claim states that every reply citing a term `T` is preceded,
within the same handler call, by a `write_persistent_state` carrying
`current_term = T`; in particular an advanced term is persisted before any
reply.  On the concrete input (member `mLog1` at term 1, RequestVote with
term 2 from candidate 2 whose log at `(index 0, term 0)` is out of date) the
handler advances `current_term` to 2 via `update_term` — which carries an
`RSI` remark instead of a storage write — denies the vote, and replies
`(2, false)` with an empty write list: the advanced term and the cleared
`voted_for` were never persisted. -/
theorem C3_reply_cites_unpersisted_term :
    ((on_request_vote mLog1 2 2 0 0).map fun r =>
        (r.writes, r.term_out, r.vote_granted_out,
         r.member.ps.current_term, r.member.ps.voted_for)) =
      some ([], 2, false, 2, none) := by
  decide

/-- C4: the claim states that whenever a request passes the acceptability
and consistency checks and `leader_commit > commit_index`, the handler sets
`commit_index = min(leader_commit, latest_incoming_index)` and terminates
normally, including when `latest_incoming_index < leader_commit`.  On the
concrete input (member `mLog1` with `commit_index = 0` and one entry at
index 1, heartbeat with `prev_log_index = 1`, no entries and
`leader_commit = 5 > latest_incoming_index = 1`) the
`while (leader_commit > commit_index)` loop calls `update_commit_index(1)`,
which succeeds, and then — since `5 > 1` still holds — calls
`update_commit_index(1)` again, tripping its
`guarantee(new_commit_index > commit_index)`: the handler dies fatally
instead of replying Success. -/
theorem C4_append_entries_commit_loop_fatal :
    on_append_entries_rpc (fun _ => true) DOps mLog1 1 9
      ⟨1, 1, []⟩ 5 = none := by
  decide

/-- C4 sanity check: the same request with `leader_commit = 1 =
latest_incoming_index` completes normally with outcome Success and
`commit_index = 1`, so the fatality above is caused precisely by
`leader_commit` exceeding the latest incoming index. -/
theorem C4_append_entries_commit_normal :
    ((on_append_entries_rpc (fun _ => true) DOps mLog1 1 9
        ⟨1, 1, []⟩ 1).map fun r =>
        (r.member.commit_index, r.success_out)) =
      some (1, raft_change_outcome_t.success) := by
  decide

/-- C8: the claim states that a candidate gathering vote grants from a
majority becomes Leader inside `leader_coro`.  The source's `leader_coro`
receives each peer's `(term_out, vote_granted_out)` into locals and discards
them: the `votes` set never grows beyond the self vote, no majority test
exists, and `mode_t::leader` is never assigned anywhere in the file.  On the
concrete input (five-member view: member `mEmpty` plus granted replies from
peers 2, 3, 4 and 5 — a unanimous grant — with no interruption) the member
ends the coroutine still in candidate mode. -/
theorem C8_leader_coro_never_becomes_leader :
    ((leader_coro mEmpty [(2, true), (3, true), (4, true), (5, true)]
        false).map fun r => (r.mode, r.ps.current_term, r.ps.voted_for)) =
      some (mode_t.candidate, 2, some 1) := by
  decide

/-- C5, counterexample: the claim asserts that the application predicate is
consulted for the proposed entries with index
`> min(latest_incoming_index, leader_commit)` and that any rejection yields
a `(current_term, Rejected)` reply.  On the concrete input (member `mSnap2`,
request with incoming log `prev_log_index = 3` carrying one entry at index 4
and `leader_commit = 2 < 3`, with a predicate rejecting everything) the
acceptability loop starts at `min(4, 2) + 1 = 3 ≤ 3`, i.e. at the incoming
log's own `prev_log_index`, and dies fatally reading a nonexistent incoming
entry before any consultation or reply: the claimed Rejected reply is never
produced. -/
theorem C5_counterexample_fatal_read :
    on_append_entries_rpc (fun _ => false) DOps mSnap2 1 9
      ⟨3, 1, [(8, 1)]⟩ 2 = none := by
  decide

/-- C6, counterexample: the claim asserts that a request failing the
consistency check receives a `(current_term, Retry)` reply even when its
`prev_log_index` lies below the local log's `prev_index`.  On the concrete
input (member `mSnap2`, whose log starts at `prev_index = 2`, receiving a
request with `prev_log_index = 1 ≤ latest_index = 2`) the handler evaluates
`ps.log.get_entry_term(1)` on an index below `prev_index`, which the
specification declares a fatal programming error: the handler dies instead
of replying Retry. -/
theorem C6_counterexample_below_prev_fatal :
    on_append_entries_rpc (fun _ => true) DOps mSnap2 1 9
      ⟨1, 1, []⟩ 1 = none := by
  decide


theorem handle_higher_term_advance {state_t change_t : Type}
    (m : raft_member_t state_t change_t) (term : Nat)
    (h : m.ps.current_term < term) :
    handle_higher_term m term =
      some { m with
             ps := { m.ps with current_term := term, voted_for := none }
             this_term_leader_id := none
             mode := mode_t.follower } := by
  simp only [handle_higher_term, update_term, h, if_true, become_follower]
  split
  · rename_i hmf
    congr 1
    cases m with
    | mk ps ci la sm tl mo mi =>
        cases ps
        simp_all
  · rfl

theorem handle_higher_term_same {state_t change_t : Type}
    (m : raft_member_t state_t change_t) (term : Nat)
    (h : ¬ m.ps.current_term < term) :
    handle_higher_term m term = some m := by
  simp only [handle_higher_term, h, if_false]

/-- C7: in `on_request_vote` with request term not below `current_term`
(after any term advance, which clears `voted_for`), the vote is denied when
`voted_for` is set and differs from `candidate_id`; it is denied when the
candidate is not at-least-as-up-to-date, which holds iff `last_log_term`
exceeds the local last entry's term, or the terms are equal and
`last_log_index` is at least the local latest index; otherwise `voted_for`
is set to `candidate_id`, persisted, and the reply is `(current_term,
true)`.  The hypotheses mirror the source's `guarantee`s: the candidate is
not the member itself and a non-follower member has voted for itself. -/
theorem C7_request_vote_rules
    {state_t change_t : Type}
    (m0 : raft_member_t state_t change_t)
    (term candidate_id last_log_index last_log_term local_last_term : Nat)
    (hterm : m0.ps.current_term ≤ term)
    (hcand : candidate_id ≠ m0.member_id)
    (hguar : m0.ps.current_term = term → m0.mode ≠ mode_t.follower →
      m0.ps.voted_for = some m0.member_id)
    (hllt : m0.ps.log.get_entry_term m0.ps.log.get_latest_index =
      some local_last_term) :
    (((if m0.ps.current_term < term then none else m0.ps.voted_for) ≠ none ∧
      (if m0.ps.current_term < term then none else m0.ps.voted_for) ≠
        some candidate_id) →
      ∃ r, on_request_vote m0 term candidate_id last_log_index last_log_term =
          some r ∧ r.term_out = term ∧ r.vote_granted_out = false ∧
          r.writes = []) ∧
    ((¬ ((if m0.ps.current_term < term then none else m0.ps.voted_for) ≠ none ∧
      (if m0.ps.current_term < term then none else m0.ps.voted_for) ≠
        some candidate_id)) →
     ¬ (local_last_term < last_log_term ∨
        (last_log_term = local_last_term ∧
          m0.ps.log.get_latest_index ≤ last_log_index)) →
      ∃ r, on_request_vote m0 term candidate_id last_log_index last_log_term =
          some r ∧ r.term_out = term ∧ r.vote_granted_out = false ∧
          r.writes = []) ∧
    ((¬ ((if m0.ps.current_term < term then none else m0.ps.voted_for) ≠ none ∧
      (if m0.ps.current_term < term then none else m0.ps.voted_for) ≠
        some candidate_id)) →
     (local_last_term < last_log_term ∨
        (last_log_term = local_last_term ∧
          m0.ps.log.get_latest_index ≤ last_log_index)) →
      ∃ r, on_request_vote m0 term candidate_id last_log_index last_log_term =
          some r ∧ r.term_out = term ∧ r.vote_granted_out = true ∧
          r.member.ps.voted_for = some candidate_id ∧
          r.writes = [r.member.ps]) := by
  by_cases hadv : m0.ps.current_term < term
  · simp only [on_request_vote, handle_higher_term_advance m0 term hadv, hadv,
      if_true]
    simp only [lt_self_iff_false, if_false, hcand, ne_eq,
      not_true_eq_false, and_false, false_and, if_false, not_false_eq_true]
    refine ⟨fun hc => absurd hc id, fun _ hutd => ?_, fun _ hutd => ?_⟩
    · simp only [hllt, if_neg hutd]
      exact ⟨_, rfl, rfl, rfl, rfl⟩
    · simp only [hllt, if_pos hutd]
      exact ⟨_, rfl, rfl, rfl, rfl, rfl⟩
  · have heq : m0.ps.current_term = term := by omega
    simp only [on_request_vote, handle_higher_term_same m0 term hadv, hadv,
      if_false, heq, lt_self_iff_false, hcand, ne_eq, not_true_eq_false,
      false_and, not_false_eq_true]
    rw [if_neg (fun hg => hg.2 (hguar heq (fun hf => hg.1 hf)))]
    by_cases hdeny : ¬m0.ps.voted_for = none ∧
        ¬m0.ps.voted_for = some candidate_id
    · rw [if_pos hdeny]
      exact ⟨fun _ => ⟨_, rfl, rfl, rfl, rfl⟩,
        fun hc => absurd hdeny hc,
        fun hc => absurd hdeny hc⟩
    · rw [if_neg hdeny]
      refine ⟨fun hc => absurd hc hdeny, fun _ hutd => ?_, fun _ hutd => ?_⟩
      · simp only [hllt, if_neg hutd]
        exact ⟨_, rfl, rfl, rfl, rfl⟩
      · simp only [hllt, if_pos hutd]
        exact ⟨_, rfl, rfl, rfl, rfl, rfl⟩

theorem apply_committed_loop_snd {state_t change_t : Type}
    (ops : raft_state_ops state_t change_t) (log : raft_log_t change_t) :
    ∀ (steps : Nat) (sm : state_t) (la : Nat) (res : state_t × Nat),
      apply_committed_loop ops log sm la steps = some res →
      res.2 = la + steps := by
  intro steps
  induction steps with
  | zero =>
      intro sm la res h
      simp only [apply_committed_loop] at h
      cases h
      rfl
  | succ k ih =>
      intro sm la res h
      simp only [apply_committed_loop] at h
      cases hg : log.get_entry (la + 1) with
      | none => rw [hg] at h; exact absurd h (by simp)
      | some e =>
          simp only [hg] at h
          by_cases hc : ops.consider_change sm e.1 = true
          · rw [if_pos hc] at h
            have := ih (ops.apply_change sm e.1) (la + 1) res h
            omega
          · rw [if_neg hc] at h
            exact absurd h (by simp)

theorem delete_entries_to_prev {change_t : Type}
    (log : raft_log_t change_t) (i : Nat) (l2 : raft_log_t change_t)
    (h : log.delete_entries_to i = some l2) : l2.prev_log_index = i := by
  simp only [raft_log_t.delete_entries_to] at h
  cases hg : log.get_entry_term i with
  | none => rw [hg] at h; exact absurd h (by simp)
  | some t => simp only [hg] at h; cases h; rfl

theorem update_term_bounds {state_t change_t : Type}
    (m : raft_member_t state_t change_t) (t : Nat)
    (m1 : raft_member_t state_t change_t) (h : update_term m t = some m1) :
    m.ps.current_term ≤ m1.ps.current_term ∧
    m1.commit_index = m.commit_index := by
  simp only [update_term] at h
  by_cases hlt : m.ps.current_term < t
  · rw [if_pos hlt] at h
    cases h
    exact ⟨by simpa using Nat.le_of_lt hlt, rfl⟩
  · rw [if_neg hlt] at h
    exact absurd h (by simp)

theorem handle_higher_term_bounds {state_t change_t : Type}
    (m : raft_member_t state_t change_t) (t : Nat)
    (m1 : raft_member_t state_t change_t)
    (h : handle_higher_term m t = some m1) :
    m.ps.current_term ≤ m1.ps.current_term ∧
    m1.commit_index = m.commit_index := by
  by_cases hlt : m.ps.current_term < t
  · rw [handle_higher_term_advance m t hlt] at h
    cases h
    exact ⟨Nat.le_of_lt hlt, rfl⟩
  · rw [handle_higher_term_same m t hlt] at h
    cases h
    exact ⟨Nat.le_refl _, rfl⟩

theorem update_commit_index_bounds {state_t change_t : Type}
    (ops : raft_state_ops state_t change_t)
    (m : raft_member_t state_t change_t) (n : Nat)
    (m1 : raft_member_t state_t change_t)
    (h : update_commit_index ops m n = some m1) :
    m1.ps.current_term = m.ps.current_term ∧
    m.commit_index ≤ m1.commit_index := by
  simp only [update_commit_index] at h
  by_cases hlt : m.commit_index < n
  · rw [if_pos hlt] at h
    cases hap : apply_committed ops m.ps.log m.state_machine m.last_applied n
      with
    | none => rw [hap] at h; exact absurd h (by simp)
    | some p =>
        rw [hap] at h
        obtain ⟨sm, la⟩ := p
        simp only at h
        split at h
        · cases hdel : m.ps.log.delete_entries_to la with
          | none => rw [hdel] at h; exact absurd h (by simp)
          | some log2 =>
              rw [hdel] at h
              cases h
              exact ⟨rfl, Nat.le_of_lt hlt⟩
        · cases h
          exact ⟨rfl, Nat.le_of_lt hlt⟩
  · rw [if_neg hlt] at h
    exact absurd h (by simp)

theorem commit_loop_bounds {state_t change_t : Type}
    (ops : raft_state_ops state_t change_t) (el lc : Nat) :
    ∀ (fuel : Nat) (m m1 : raft_member_t state_t change_t),
      commit_loop ops el lc fuel m = some m1 →
      m1.ps.current_term = m.ps.current_term ∧
      m.commit_index ≤ m1.commit_index := by
  intro fuel
  induction fuel with
  | zero =>
      intro m m1 h
      exact absurd h (by simp [commit_loop])
  | succ k ih =>
      intro m m1 h
      simp only [commit_loop] at h
      by_cases hlt : m.commit_index < lc
      · rw [if_pos hlt] at h
        cases hu : update_commit_index ops m (min lc el) with
        | none => rw [hu] at h; exact absurd h (by simp)
        | some mm =>
            simp only [hu] at h
            have h1 := update_commit_index_bounds ops m (min lc el) mm hu
            have h2 := ih mm m1 h
            exact ⟨by omega, by omega⟩
      · rw [if_neg hlt] at h
        cases h
        exact ⟨rfl, Nat.le_refl _⟩

theorem record_leader_bounds {state_t change_t : Type}
    (m : raft_member_t state_t change_t) (lid : Nat)
    (m1 : raft_member_t state_t change_t) (h : record_leader m lid = some m1) :
    m1.ps = m.ps ∧ m1.commit_index = m.commit_index := by
  simp only [record_leader] at h
  cases hl : m.this_term_leader_id with
  | none => simp only [hl] at h; cases h; exact ⟨rfl, rfl⟩
  | some l =>
      simp only [hl] at h
      by_cases he : l = lid
      · rw [if_pos he] at h
        cases h
        exact ⟨rfl, rfl⟩
      · rw [if_neg he] at h
        exact absurd h (by simp)

theorem append_entries_phase2_bounds {state_t change_t : Type}
    (P : change_t → Bool) (ops : raft_state_ops state_t change_t)
    (m2 : raft_member_t state_t change_t) (lid : Nat)
    (entries : raft_log_t change_t) (lc : Nat)
    (r : append_result state_t change_t)
    (h : append_entries_phase2 P ops m2 lid entries lc = some r) :
    m2.ps.current_term ≤ r.member.ps.current_term ∧
    m2.commit_index ≤ r.member.commit_index := by
  simp only [append_entries_phase2] at h
  split at h
  · exact absurd h (by simp)
  · cases h
    exact ⟨Nat.le_refl _, Nat.le_refl _⟩
  · split at h
    · cases h
      exact ⟨Nat.le_refl _, Nat.le_refl _⟩
    · split at h
      · exact absurd h (by simp)
      · split at h
        · cases h
          exact ⟨Nat.le_refl _, Nat.le_refl _⟩
        · split at h
          · exact absurd h (by simp)
          · split at h
            · exact absurd h (by simp)
            · split at h
              · exact absurd h (by simp)
              · rename_i m5 hcl
                split at h
                · exact absurd h (by simp)
                · rename_i m6 hrl
                  cases h
                  have hb1 := commit_loop_bounds ops
                    entries.get_latest_index lc (lc + 1) _ m5 hcl
                  have hb2 := record_leader_bounds m5 lid m6 hrl
                  simp only at hb1
                  have e1 : m6.ps.current_term = m2.ps.current_term := by
                    rw [hb2.1, hb1.1]
                  have e2 := hb1.2
                  have e3 := hb2.2
                  dsimp only
                  exact ⟨by omega, by omega⟩

theorem mode_adjust_fields {state_t change_t : Type}
    (m1 : raft_member_t state_t change_t) (c : Prop) [Decidable c] :
    (if c then become_follower m1 else m1).ps = m1.ps ∧
    (if c then become_follower m1 else m1).commit_index = m1.commit_index ∧
    (if c then become_follower m1 else m1).last_applied = m1.last_applied ∧
    (if c then become_follower m1 else m1).state_machine =
      m1.state_machine := by
  split <;> exact ⟨rfl, rfl, rfl, rfl⟩

theorem on_append_entries_rpc_bounds {state_t change_t : Type}
    (P : change_t → Bool) (ops : raft_state_ops state_t change_t)
    (m0 : raft_member_t state_t change_t) (term lid : Nat)
    (entries : raft_log_t change_t) (lc : Nat)
    (r : append_result state_t change_t)
    (h : on_append_entries_rpc P ops m0 term lid entries lc = some r) :
    m0.ps.current_term ≤ r.member.ps.current_term ∧
    m0.commit_index ≤ r.member.commit_index := by
  simp only [on_append_entries_rpc] at h
  cases hh : handle_higher_term m0 term with
  | none => simp only [hh] at h; exact absurd h (by simp)
  | some m1 =>
      simp only [hh] at h
      have hb := handle_higher_term_bounds m0 term m1 hh
      split at h
      · cases h
        dsimp only
        exact ⟨hb.1, by omega⟩
      · split at h
        · split at h
          · split at h
            · exact absurd h (by simp)
            · have hp := append_entries_phase2_bounds P ops
                (become_follower m1) lid entries lc r h
              dsimp only [become_follower] at hp
              exact ⟨by omega, by omega⟩
          · split at h
            · exact absurd h (by simp)
            · have hp := append_entries_phase2_bounds P ops
                m1 lid entries lc r h
              exact ⟨by omega, by omega⟩
        · exact absurd h (by simp)

theorem on_request_vote_bounds {state_t change_t : Type}
    (m0 : raft_member_t state_t change_t) (term cid lli llt : Nat)
    (r : vote_result state_t change_t)
    (h : on_request_vote m0 term cid lli llt = some r) :
    m0.ps.current_term ≤ r.member.ps.current_term ∧
    m0.commit_index ≤ r.member.commit_index := by
  simp only [on_request_vote] at h
  cases hh : handle_higher_term m0 term with
  | none => simp only [hh] at h; exact absurd h (by simp)
  | some m1 =>
      simp only [hh] at h
      have hb := handle_higher_term_bounds m0 term m1 hh
      split at h
      · cases h
        dsimp only
        exact ⟨hb.1, by omega⟩
      · split at h
        · exact absurd h (by simp)
        · split at h
          · exact absurd h (by simp)
          · split at h
            · cases h
              dsimp only
              exact ⟨hb.1, by omega⟩
            · split at h
              · exact absurd h (by simp)
              · split at h
                · cases h
                  dsimp only
                  exact ⟨hb.1, by omega⟩
                · cases h
                  dsimp only
                  exact ⟨hb.1, by omega⟩

theorem on_install_snapshot_bounds {state_t change_t : Type}
    (m0 : raft_member_t state_t change_t) (term lid lii lit : Nat)
    (snap : state_t) (r : install_result state_t change_t)
    (h : on_install_snapshot m0 term lid lii lit snap = some r) :
    m0.ps.current_term ≤ r.member.ps.current_term ∧
    m0.commit_index ≤ r.member.commit_index := by
  simp only [on_install_snapshot] at h
  cases hh : handle_higher_term m0 term with
  | none => simp only [hh] at h; exact absurd h (by simp)
  | some m1 =>
      simp only [hh] at h
      have hb := handle_higher_term_bounds m0 term m1 hh
      split at h
      · cases h
        dsimp only
        exact ⟨hb.1, by omega⟩
      · split at h
        · cases h
          dsimp only
          exact ⟨hb.1, by omega⟩
        · rename_i hfalse
          omega

theorem leader_coro_bounds {state_t change_t : Type}
    (m : raft_member_t state_t change_t) (replies : List (Nat × Bool))
    (intr : Bool) (m1 : raft_member_t state_t change_t)
    (h : leader_coro m replies intr = some m1) :
    m.ps.current_term ≤ m1.ps.current_term ∧
    m.commit_index ≤ m1.commit_index := by
  simp only [leader_coro] at h
  split at h
  · cases hu : update_term m (m.ps.current_term + 1) with
    | none => simp only [hu] at h; exact absurd h (by simp)
    | some mu =>
        simp only [hu] at h
        have hb := update_term_bounds m (m.ps.current_term + 1) mu hu
        split at h <;>
          · cases h
            dsimp only
            exact ⟨by omega, by omega⟩
  · exact absurd h (by simp)

/-- C10: after every completed call to `update_commit_index` — from a state
satisfying the maintained invariants `last_applied ≤ commit_index` and
`ps.log.prev_log_index ≤ last_applied` — `last_applied` equals
`commit_index`, the persistent snapshot equals the running state machine,
and the log's `prev_index` equals `last_applied`: the member applies and
immediately compacts every committed entry, so no log entry at or below
`commit_index` is retained. -/
theorem C10_update_commit_index_compacts {state_t change_t : Type}
    (ops : raft_state_ops state_t change_t)
    (m : raft_member_t state_t change_t) (n : Nat)
    (h1 : m.last_applied ≤ m.commit_index)
    (h2 : m.ps.log.prev_log_index ≤ m.last_applied)
    (m2 : raft_member_t state_t change_t)
    (hcall : update_commit_index ops m n = some m2) :
    m2.last_applied = m2.commit_index ∧
    m2.ps.snapshot = m2.state_machine ∧
    m2.ps.log.prev_log_index = m2.last_applied := by
  simp only [update_commit_index] at hcall
  by_cases hlt : m.commit_index < n
  · rw [if_pos hlt] at hcall
    cases hap : apply_committed ops m.ps.log m.state_machine m.last_applied n
      with
    | none => rw [hap] at hcall; exact absurd hcall (by simp)
    | some p =>
        rw [hap] at hcall
        have hla : p.2 = m.last_applied + (n - m.last_applied) :=
          apply_committed_loop_snd ops m.ps.log (n - m.last_applied)
            m.state_machine m.last_applied p hap
        have hla2 : p.2 = n := by omega
        obtain ⟨sm, la⟩ := p
        simp only at hla2
        subst hla2
        simp only at hcall
        rw [if_pos (by omega : m.ps.log.prev_log_index < la)] at hcall
        cases hdel : m.ps.log.delete_entries_to la with
        | none => rw [hdel] at hcall; exact absurd hcall (by simp)
        | some log2 =>
            rw [hdel] at hcall
            cases hcall
            refine ⟨rfl, rfl, ?_⟩
            exact delete_entries_to_prev m.ps.log la log2 hdel
  · rw [if_neg hlt] at hcall
    exact absurd hcall (by simp)

/-- C9: `current_term` and `commit_index` are non-decreasing: no completing
operation of the member — `on_append_entries_rpc`, `on_request_vote`,
`on_install_snapshot`, `update_term`, `update_commit_index` or
`leader_coro` — ever decreases `ps.current_term` or `commit_index`. -/
theorem C9_term_and_commit_monotone {state_t change_t : Type} :
    (∀ (P : change_t → Bool) (ops : raft_state_ops state_t change_t)
       (m0 : raft_member_t state_t change_t) (term lid : Nat)
       (entries : raft_log_t change_t) (lc : Nat)
       (r : append_result state_t change_t),
       on_append_entries_rpc P ops m0 term lid entries lc = some r →
       m0.ps.current_term ≤ r.member.ps.current_term ∧
       m0.commit_index ≤ r.member.commit_index) ∧
    (∀ (m0 : raft_member_t state_t change_t) (term cid lli llt : Nat)
       (r : vote_result state_t change_t),
       on_request_vote m0 term cid lli llt = some r →
       m0.ps.current_term ≤ r.member.ps.current_term ∧
       m0.commit_index ≤ r.member.commit_index) ∧
    (∀ (m0 : raft_member_t state_t change_t) (term lid lii lit : Nat)
       (snap : state_t) (r : install_result state_t change_t),
       on_install_snapshot m0 term lid lii lit snap = some r →
       m0.ps.current_term ≤ r.member.ps.current_term ∧
       m0.commit_index ≤ r.member.commit_index) ∧
    (∀ (m : raft_member_t state_t change_t) (t : Nat)
       (m1 : raft_member_t state_t change_t),
       update_term m t = some m1 →
       m.ps.current_term ≤ m1.ps.current_term ∧
       m.commit_index ≤ m1.commit_index) ∧
    (∀ (ops : raft_state_ops state_t change_t)
       (m : raft_member_t state_t change_t) (n : Nat)
       (m1 : raft_member_t state_t change_t),
       update_commit_index ops m n = some m1 →
       m.ps.current_term ≤ m1.ps.current_term ∧
       m.commit_index ≤ m1.commit_index) ∧
    (∀ (m : raft_member_t state_t change_t) (replies : List (Nat × Bool))
       (intr : Bool) (m1 : raft_member_t state_t change_t),
       leader_coro m replies intr = some m1 →
       m.ps.current_term ≤ m1.ps.current_term ∧
       m.commit_index ≤ m1.commit_index) := by
  refine ⟨?_, ?_, ?_, ?_, ?_, ?_⟩
  · intro P ops m0 term lid entries lc r h
    exact on_append_entries_rpc_bounds P ops m0 term lid entries lc r h
  · intro m0 term cid lli llt r h
    exact on_request_vote_bounds m0 term cid lli llt r h
  · intro m0 term lid lii lit snap r h
    exact on_install_snapshot_bounds m0 term lid lii lit snap r h
  · intro m t m1 h
    have hb := update_term_bounds m t m1 h
    exact ⟨hb.1, le_of_eq hb.2.symm⟩
  · intro ops m n m1 h
    have hb := update_commit_index_bounds ops m n m1 h
    exact ⟨le_of_eq hb.1.symm, hb.2⟩
  · intro m replies intr m1 h
    exact leader_coro_bounds m replies intr m1 h

theorem C9_term_and_commit_monotone_witness :
    mEmpty.ps.current_term ≤
      (mkMember 5 none ⟨0, 0, []⟩ [] 0 0 []).ps.current_term ∧
    mEmpty.commit_index ≤
      (mkMember 5 none ⟨0, 0, []⟩ [] 0 0 []).commit_index :=
  C9_term_and_commit_monotone.2.2.2.1 mEmpty 5
    (mkMember 5 none ⟨0, 0, []⟩ [] 0 0 []) rfl

theorem get_entry_bounds {change_t : Type} (log : raft_log_t change_t)
    (i : Nat) (e : change_t × Nat) (h : log.get_entry i = some e) :
    log.prev_log_index < i ∧ i ≤ log.get_latest_index := by
  simp only [raft_log_t.get_entry] at h
  split at h
  · rename_i hlt
    have := List.get?_eq_some.mp h
    obtain ⟨hlen, -⟩ := this
    simp only [raft_log_t.get_latest_index]
    omega
  · exact absurd h (by simp)

theorem get_entry_is_some {change_t : Type} (log : raft_log_t change_t)
    (i : Nat) (h1 : log.prev_log_index < i)
    (h2 : i ≤ log.get_latest_index) :
    ∃ e, log.get_entry i = some e := by
  simp only [raft_log_t.get_entry, if_pos h1]
  have hlen : i - log.prev_log_index - 1 < log.entries.length := by
    simp only [raft_log_t.get_latest_index] at h2
    omega
  exact ⟨_, List.get?_eq_get hlen⟩

theorem get_entry_term_is_some {change_t : Type} (log : raft_log_t change_t)
    (i : Nat) (h1 : log.prev_log_index ≤ i)
    (h2 : i ≤ log.get_latest_index) :
    ∃ t, log.get_entry_term i = some t := by
  simp only [raft_log_t.get_entry_term]
  by_cases he : i = log.prev_log_index
  · rw [if_pos he]
    exact ⟨_, rfl⟩
  · rw [if_neg he]
    obtain ⟨e, hge⟩ := get_entry_is_some log i (by omega) h2
    rw [hge]
    exact ⟨_, rfl⟩

theorem check_entries_loop_agree {change_t : Type} (P Q : change_t → Bool)
    (entries : raft_log_t change_t) :
    ∀ (steps i : Nat),
      (∀ j e, entries.get_entry j = some e → i ≤ j → P e.1 = Q e.1) →
      check_entries_loop P entries i steps =
        check_entries_loop Q entries i steps := by
  intro steps
  induction steps with
  | zero => intro i _; rfl
  | succ k ih =>
      intro i hag
      cases hg : entries.get_entry i with
      | none => simp only [check_entries_loop, hg]
      | some e =>
          simp only [check_entries_loop, hg]
          rw [hag i e hg (Nat.le_refl i)]
          by_cases hq : Q e.1 = true
          · rw [if_pos hq, if_pos hq]
            exact ih (i + 1) (fun j e2 hg2 hle => hag j e2 hg2 (by omega))
          · rw [if_neg hq, if_neg hq]

theorem check_entries_loop_rejected {change_t : Type} (P : change_t → Bool)
    (entries : raft_log_t change_t) :
    ∀ (steps i j : Nat) (e : change_t × Nat),
      entries.prev_log_index < i → i ≤ j → j < i + steps →
      entries.get_entry j = some e → P e.1 = false →
      check_entries_loop P entries i steps = some false := by
  intro steps
  induction steps with
  | zero => intro i j e _ _ hlt _ _; omega
  | succ k ih =>
      intro i j e hprev hij hjlt hg hpf
      have hjb := get_entry_bounds entries j e hg
      obtain ⟨ei, hgi⟩ := get_entry_is_some entries i hprev (by omega)
      simp only [check_entries_loop, hgi]
      by_cases hpi : P ei.1 = true
      · rw [if_pos hpi]
        have hne : i ≠ j := by
          intro hij2
          rw [hij2, hg] at hgi
          cases hgi
          rw [hpf] at hpi
          cases hpi
        exact ih (i + 1) j e (by omega) (by omega) (by omega) hg hpf
      · rw [if_neg hpi]

theorem check_entries_loop_accepted {change_t : Type} (P : change_t → Bool)
    (entries : raft_log_t change_t) :
    ∀ (steps i : Nat),
      entries.prev_log_index < i →
      i + steps ≤ entries.get_latest_index + 1 →
      (∀ j e, entries.get_entry j = some e → i ≤ j → P e.1 = true) →
      check_entries_loop P entries i steps = some true := by
  intro steps
  induction steps with
  | zero => intro i _ _ _; rfl
  | succ k ih =>
      intro i hprev hle hacc
      obtain ⟨ei, hgi⟩ := get_entry_is_some entries i hprev (by omega)
      simp only [check_entries_loop, hgi]
      rw [if_pos (hacc i ei hgi (Nat.le_refl i))]
      exact ih (i + 1) (by omega) (by omega)
        (fun j e2 hg2 hle2 => hacc j e2 hg2 (by omega))

theorem check_entries_rejected {change_t : Type} (P : change_t → Bool)
    (entries : raft_log_t change_t) (start j : Nat) (e : change_t × Nat)
    (hprev : entries.prev_log_index < start)
    (hsj : start ≤ j) (hg : entries.get_entry j = some e)
    (hpf : P e.1 = false) :
    check_entries P entries start = some false := by
  have hjb := get_entry_bounds entries j e hg
  exact check_entries_loop_rejected P entries
    (entries.get_latest_index + 1 - start) start j e hprev hsj (by omega)
    hg hpf

theorem check_entries_accepted {change_t : Type} (P : change_t → Bool)
    (entries : raft_log_t change_t) (start : Nat)
    (hprev : entries.prev_log_index < start)
    (hacc : ∀ j e, entries.get_entry j = some e → start ≤ j →
      P e.1 = true) :
    check_entries P entries start = some true := by
  by_cases hs : start ≤ entries.get_latest_index + 1
  · exact check_entries_loop_accepted P entries
      (entries.get_latest_index + 1 - start) start hprev (by omega) hacc
  · have h0 : entries.get_latest_index + 1 - start = 0 := by omega
    simp only [check_entries, h0, check_entries_loop]

theorem check_entries_agree {change_t : Type} (P Q : change_t → Bool)
    (entries : raft_log_t change_t) (start : Nat)
    (hag : ∀ j e, entries.get_entry j = some e → start ≤ j →
      P e.1 = Q e.1) :
    check_entries P entries start = check_entries Q entries start :=
  check_entries_loop_agree P Q entries
    (entries.get_latest_index + 1 - start) start hag

theorem reach_phase2 {state_t change_t : Type} (P : change_t → Bool)
    (ops : raft_state_ops state_t change_t)
    (m0 : raft_member_t state_t change_t) (term lid : Nat)
    (entries : raft_log_t change_t) (lc : Nat)
    (hterm : m0.ps.current_term ≤ term)
    (hmode : m0.ps.current_term = term → m0.mode ≠ mode_t.leader) :
    ∃ m2, on_append_entries_rpc P ops m0 term lid entries lc =
        append_entries_phase2 P ops m2 lid entries lc ∧
      m2.ps.current_term = term ∧
      m2.ps.log = m0.ps.log ∧ m2.ps.snapshot = m0.ps.snapshot ∧
      m2.commit_index = m0.commit_index ∧
      m2.last_applied = m0.last_applied ∧
      m2.state_machine = m0.state_machine := by
  by_cases hadv : m0.ps.current_term < term
  · refine ⟨{ m0 with
              ps := { m0.ps with current_term := term, voted_for := none }
              this_term_leader_id := none
              mode := mode_t.follower },
      ?_, rfl, rfl, rfl, rfl, rfl, rfl⟩
    simp only [on_append_entries_rpc, handle_higher_term_advance m0 term hadv]
    simp only [lt_self_iff_false, if_false, if_pos rfl]
    rfl
  · have heq : m0.ps.current_term = term := by omega
    have hnl := hmode heq
    have hm2 : ¬ (if m0.mode = mode_t.candidate then become_follower m0
        else m0).mode = mode_t.leader := by
      split
      · simp [become_follower]
      · exact hnl
    refine ⟨if m0.mode = mode_t.candidate then become_follower m0 else m0,
      ?_, ?_, ?_, ?_, ?_, ?_, ?_⟩
    · simp only [on_append_entries_rpc, handle_higher_term_same m0 term hadv]
      rw [if_neg (by omega : ¬term < m0.ps.current_term),
        if_pos heq.symm, if_neg hm2]
    · split <;> simp [become_follower, heq]
    · split <;> rfl
    · split <;> rfl
    · split <;> rfl
    · split <;> rfl
    · split <;> rfl

theorem append_entries_phase2_agree {state_t change_t : Type}
    (P Q : change_t → Bool) (ops : raft_state_ops state_t change_t)
    (lid : Nat) (entries : raft_log_t change_t) (lc : Nat)
    (hag : ∀ j e, entries.get_entry j = some e →
      min entries.get_latest_index lc < j → P e.1 = Q e.1) :
    ∀ m2 : raft_member_t state_t change_t,
      append_entries_phase2 P ops m2 lid entries lc =
      append_entries_phase2 Q ops m2 lid entries lc := by
  intro m2
  simp only [append_entries_phase2]
  rw [check_entries_agree P Q entries
    (min entries.get_latest_index lc + 1)
    (fun j e hg hle => hag j e hg (by omega))]

theorem append_entries_phase2_rejected {state_t change_t : Type}
    (P : change_t → Bool) (ops : raft_state_ops state_t change_t)
    (m2 : raft_member_t state_t change_t) (lid : Nat)
    (entries : raft_log_t change_t) (lc : Nat)
    (h : check_entries P entries
      (min entries.get_latest_index lc + 1) = some false) :
    append_entries_phase2 P ops m2 lid entries lc =
      some { member := m2
             writes := []
             term_out := m2.ps.current_term
             success_out := raft_change_outcome_t.rejected } := by
  simp only [append_entries_phase2, h]

theorem append_entries_phase2_not_rejected {state_t change_t : Type}
    (P : change_t → Bool) (ops : raft_state_ops state_t change_t)
    (m2 : raft_member_t state_t change_t) (lid : Nat)
    (entries : raft_log_t change_t) (lc : Nat)
    (hchk : check_entries P entries
      (min entries.get_latest_index lc + 1) = some true)
    (r : append_result state_t change_t)
    (hr : append_entries_phase2 P ops m2 lid entries lc = some r) :
    r.success_out ≠ raft_change_outcome_t.rejected := by
  simp only [append_entries_phase2, hchk] at hr
  split at hr
  · cases hr
    simp
  · split at hr
    · exact absurd hr (by simp)
    · split at hr
      · cases hr
        simp
      · split at hr
        · exact absurd hr (by simp)
        · split at hr
          · exact absurd hr (by simp)
          · split at hr
            · exact absurd hr (by simp)
            · split at hr
              · exact absurd hr (by simp)
              · cases hr
                simp

theorem append_entries_phase2_retry {state_t change_t : Type}
    (P : change_t → Bool) (ops : raft_state_ops state_t change_t)
    (m2 : raft_member_t state_t change_t) (lid : Nat)
    (entries : raft_log_t change_t) (lc : Nat)
    (hchk : check_entries P entries
      (min entries.get_latest_index lc + 1) = some true)
    (hcond : m2.ps.log.get_latest_index < entries.prev_log_index ∨
      (¬ m2.ps.log.get_latest_index < entries.prev_log_index ∧
       m2.ps.log.prev_log_index ≤ entries.prev_log_index ∧
       m2.ps.log.get_entry_term entries.prev_log_index ≠
         some entries.prev_log_term)) :
    append_entries_phase2 P ops m2 lid entries lc =
      some { member := m2
             writes := []
             term_out := m2.ps.current_term
             success_out := raft_change_outcome_t.retry } := by
  simp only [append_entries_phase2, hchk]
  rcases hcond with h1 | ⟨h1, h2, h3⟩
  · rw [if_pos h1]
  · rw [if_neg h1]
    obtain ⟨t, ht⟩ := get_entry_term_is_some m2.ps.log
      entries.prev_log_index h2 (by omega)
    simp only [ht]
    rw [if_pos (fun htt => h3 (by rw [ht, htt]))]

/-- C5 (amended): in `on_append_entries_rpc` with request term not below
`current_term`, provided `leader_commit` is at least the incoming log's
`prev_log_index` (otherwise the acceptability loop dies fatally reading a
nonexistent incoming entry, see the counterexample): (a) the application
predicate is consulted only for the proposed entries with index
`> min(latest_incoming_index, leader_commit)` — the handler's result
depends on the predicate only through its values on those entries; (b) if
the predicate rejects any of them, the handler replies
`(current_term, Rejected)` and the log, `commit_index`, `last_applied`,
running state machine and snapshot are all unchanged; (c) if it accepts all
of them, the handler never replies Rejected. -/
theorem C5_acceptability_check {state_t change_t : Type}
    (P Q : change_t → Bool) (ops : raft_state_ops state_t change_t)
    (m0 : raft_member_t state_t change_t) (term leader_id : Nat)
    (entries : raft_log_t change_t) (leader_commit : Nat)
    (hterm : m0.ps.current_term ≤ term)
    (hmode : m0.ps.current_term = term → m0.mode ≠ mode_t.leader)
    (hlc : entries.prev_log_index ≤ leader_commit) :
    ((∀ j e, entries.get_entry j = some e →
        min entries.get_latest_index leader_commit < j → P e.1 = Q e.1) →
      on_append_entries_rpc P ops m0 term leader_id entries leader_commit =
      on_append_entries_rpc Q ops m0 term leader_id entries leader_commit) ∧
    ((∃ j e, min entries.get_latest_index leader_commit < j ∧
        entries.get_entry j = some e ∧ P e.1 = false) →
      ∃ r, on_append_entries_rpc P ops m0 term leader_id entries
          leader_commit = some r ∧
        r.term_out = term ∧
        r.success_out = raft_change_outcome_t.rejected ∧
        r.writes = [] ∧
        r.member.ps.log = m0.ps.log ∧
        r.member.commit_index = m0.commit_index ∧
        r.member.last_applied = m0.last_applied ∧
        r.member.state_machine = m0.state_machine ∧
        r.member.ps.snapshot = m0.ps.snapshot) ∧
    ((∀ j e, entries.get_entry j = some e →
        min entries.get_latest_index leader_commit < j → P e.1 = true) →
      ∀ r, on_append_entries_rpc P ops m0 term leader_id entries
          leader_commit = some r →
        r.success_out ≠ raft_change_outcome_t.rejected) := by
  have hprevmin : entries.prev_log_index ≤
      min entries.get_latest_index leader_commit := by
    have : entries.prev_log_index ≤ entries.get_latest_index := by
      simp only [raft_log_t.get_latest_index]
      omega
    omega
  refine ⟨?_, ?_, ?_⟩
  · intro hag
    simp only [on_append_entries_rpc,
      append_entries_phase2_agree P Q ops leader_id entries leader_commit hag]
  · intro ⟨j, e, hj, hg, hpf⟩
    have hchk : check_entries P entries
        (min entries.get_latest_index leader_commit + 1) = some false :=
      check_entries_rejected P entries _ j e (by omega) (by omega) hg hpf
    obtain ⟨m2, heq, hct, hlog, hsnap, hci, hla, hsm⟩ :=
      reach_phase2 P ops m0 term leader_id entries leader_commit hterm hmode
    rw [heq, append_entries_phase2_rejected P ops m2 leader_id entries
      leader_commit hchk]
    exact ⟨_, rfl, hct, rfl, rfl, hlog, hci, hla, hsm, hsnap⟩
  · intro hacc r hr
    have hchk : check_entries P entries
        (min entries.get_latest_index leader_commit + 1) = some true :=
      check_entries_accepted P entries _ (by omega)
        (fun j e hg hle => hacc j e hg (by omega))
    obtain ⟨m2, heq, -, -, -, -, -, -⟩ :=
      reach_phase2 P ops m0 term leader_id entries leader_commit hterm hmode
    rw [heq] at hr
    exact append_entries_phase2_not_rejected P ops m2 leader_id entries
      leader_commit hchk r hr

theorem C5_acceptability_check_witness :
    ∃ r, on_append_entries_rpc (fun c => decide (c ≠ 7)) DOps mEmpty 1 9
        ⟨0, 0, [(7, 1)]⟩ 0 = some r ∧
      r.term_out = 1 ∧
      r.success_out = raft_change_outcome_t.rejected ∧
      r.writes = [] ∧
      r.member.ps.log = mEmpty.ps.log ∧
      r.member.commit_index = mEmpty.commit_index ∧
      r.member.last_applied = mEmpty.last_applied ∧
      r.member.state_machine = mEmpty.state_machine ∧
      r.member.ps.snapshot = mEmpty.ps.snapshot :=
  (C5_acceptability_check (fun c => decide (c ≠ 7)) (fun c => decide (c ≠ 7))
    DOps mEmpty 1 9 ⟨0, 0, [(7, 1)]⟩ 0 (by decide)
    (fun _ => by decide) (by decide)).2.1
    ⟨1, (7, 1), by decide, by decide, by decide⟩

/-- C6 (amended): in `on_append_entries_rpc` with request term not below
`current_term` and every proposed change acceptable (and `leader_commit` at
least the incoming `prev_log_index`), if `prev_log_index > latest_index`,
or `prev_log_index` is at least the log's `prev_index` and the local entry
term at `prev_log_index` differs from `prev_log_term`, the handler replies
`(current_term, Retry)` without modifying the log.  When `prev_log_index`
lies below the log's `prev_index` the handler instead fails fatally reading
the entry term (see the counterexample), so that case is excluded here. -/
theorem C6_consistency_check_retry {state_t change_t : Type}
    (P : change_t → Bool) (ops : raft_state_ops state_t change_t)
    (m0 : raft_member_t state_t change_t) (term leader_id : Nat)
    (entries : raft_log_t change_t) (leader_commit : Nat)
    (hterm : m0.ps.current_term ≤ term)
    (hmode : m0.ps.current_term = term → m0.mode ≠ mode_t.leader)
    (hlc : entries.prev_log_index ≤ leader_commit)
    (hacc : ∀ j e, entries.get_entry j = some e → P e.1 = true)
    (hcons : m0.ps.log.get_latest_index < entries.prev_log_index ∨
      (¬ m0.ps.log.get_latest_index < entries.prev_log_index ∧
       m0.ps.log.prev_log_index ≤ entries.prev_log_index ∧
       m0.ps.log.get_entry_term entries.prev_log_index ≠
         some entries.prev_log_term)) :
    ∃ r, on_append_entries_rpc P ops m0 term leader_id entries
        leader_commit = some r ∧
      r.term_out = term ∧
      r.success_out = raft_change_outcome_t.retry ∧
      r.writes = [] ∧
      r.member.ps.log = m0.ps.log := by
  have hprevmin : entries.prev_log_index ≤
      min entries.get_latest_index leader_commit := by
    have : entries.prev_log_index ≤ entries.get_latest_index := by
      simp only [raft_log_t.get_latest_index]
      omega
    omega
  have hchk : check_entries P entries
      (min entries.get_latest_index leader_commit + 1) = some true :=
    check_entries_accepted P entries _ (by omega)
      (fun j e hg _ => hacc j e hg)
  obtain ⟨m2, heq, hct, hlog, hsnap, hci, hla, hsm⟩ :=
    reach_phase2 P ops m0 term leader_id entries leader_commit hterm hmode
  rw [heq, append_entries_phase2_retry P ops m2 leader_id entries
    leader_commit hchk (by rw [hlog]; exact hcons)]
  exact ⟨_, rfl, hct, rfl, rfl, hlog⟩

theorem C6_consistency_check_retry_witness :
    ∃ r, on_append_entries_rpc (fun _ => true) DOps mEmpty 1 9
        ⟨2, 1, []⟩ 2 = some r ∧
      r.term_out = 1 ∧
      r.success_out = raft_change_outcome_t.retry ∧
      r.writes = [] ∧
      r.member.ps.log = mEmpty.ps.log :=
  C6_consistency_check_retry (fun _ => true) DOps mEmpty 1 9
    ⟨2, 1, []⟩ 2 (by decide) (fun _ => by decide) (by decide)
    (fun j e _ => rfl) (Or.inl (by decide))

theorem C7_request_vote_rules_witness :
    ∃ r, on_request_vote mEmpty 2 2 0 0 = some r ∧ r.term_out = 2 ∧
      r.vote_granted_out = true ∧ r.member.ps.voted_for = some 2 ∧
      r.writes = [r.member.ps] :=
  (C7_request_vote_rules mEmpty 2 2 0 0 0 (by decide) (by decide)
    (fun h => absurd h (by decide)) (by decide)).2.2
    (by decide) (by decide)

theorem C10_update_commit_index_compacts_witness :
    mLog1.last_applied ≤ mLog1.commit_index ∧
    mLog1.ps.log.prev_log_index ≤ mLog1.last_applied ∧
    ∃ m2, update_commit_index DOps mLog1 1 = some m2 ∧
      (m2.last_applied = m2.commit_index ∧
       m2.ps.snapshot = m2.state_machine ∧
       m2.ps.log.prev_log_index = m2.last_applied) :=
  ⟨by decide, by decide, _, rfl,
    C10_update_commit_index_compacts DOps mLog1 1 (by decide) (by decide)
      _ rfl⟩
